import Mathlib

/-!
Shallow embedding of selected components of the TensorArtist repository,
with theorems settling the frozen specification claims.

Sources embedded:
  * tartist/core/environ.py            (`_Environ.get`, `_Environ.load`, `with_env`)
  * examples/human-preference/libhpref/pcollector.py
        (`TrajectoryPairPool.push/pop`, `PreferenceCollector._try_post_video`)
  * tartist/nn/tfutils.py              (`fetch_variable`, `fetch_variables`)
  * examples/human-preference/libhpref/train.py (`HPA3CTrainer.train/_wrapped_run_step`)
  * tartist/plugins/trainer_enhancer/summary.py (`SummaryHistoryManager.average`)
  * tartist/app/rl/custom/simple.py    (`MoveRightRLEnviron`)
  * tartist/app/rl/utils.py            (`LimitLengthProxyRLEnviron`, `AutoRestartProxyRLEnviron`)
  * tartist/image/visualize.py         (`image_grid`)

Machine integers do not occur on the embedded paths; Python ints are modelled
by `Int`/`Nat` and Python floats by `Rat` (the numeric literals appearing in
the claims, such as `1e-4`, are exact in this model).
-/

namespace TArt

/-! ### 1. Configuration store — tartist/core/environ.py

A Python value stored in the settings tree is either a scalar or a nested
dict.  Python `dict`s are modelled as association lists preserving insertion
order (existing keys keep their position, new keys are appended, matching
CPython semantics).  The Python value `None` is represented by `Option.none`
at use sites (`_Environ.get` tests `default is None`), so it is not a
constructor of `PyVal`. -/

inductive PyVal : Type where
  | int : Int → PyVal
  | str : String → PyVal
  | dict : List (String × PyVal) → PyVal
deriving Repr

abbrev Store := List (String × PyVal)

/-- Python `d[k]` read on a dict modelled as an assoc list. -/
def assocFind (k : String) : Store → Option PyVal
  | [] => none
  | (k', v) :: t => if k' = k then some v else assocFind k t

/-- Python `d[k] = v` on a dict: replace in place if the key exists
(keeping its position), append otherwise. -/
def assocSet (k : String) (v : PyVal) : Store → Store
  | [] => [(k, v)]
  | (k', v') :: t => if k' = k then (k, v) :: t else (k', v') :: assocSet k v t

/-- `_Environ.get(key, default)` (environ.py lines 75-95), with the key
already split at the dots (`key.split('.')` always yields a nonempty list).
Walking `subkeys[0:-1]`, a missing intermediate key is auto-vivified to an
empty dict; at the last key, a present value is returned unchanged, an
absent value returns the default, and a non-`None` default is additionally
stored at the key.  The outer `Option` is the Python exception monad: the
result is `none` when the traversal meets a non-dict intermediate value
(CPython raises `TypeError` on the `subkey in current` membership test) and
on the unreachable empty path. -/
def envGet : List String → Option PyVal → Store → Option (Option PyVal × Store)
  | [], _, _ => none
  | [k], d, store =>
    match assocFind k store with
    | some v => some (some v, store)
    | none =>
      match d with
      | none => some (none, store)
      | some dv => some (some dv, assocSet k dv store)
  | k :: k2 :: rest, d, store =>
    match assocFind k store with
    | none =>
      match envGet (k2 :: rest) d [] with
      | none => none
      | some (r, sub) => some (r, assocSet k (PyVal.dict sub) store)
    | some (PyVal.dict sub) =>
      match envGet (k2 :: rest) d sub with
      | none => none
      | some (r, sub') => some (r, assocSet k (PyVal.dict sub') store)
    | some _ => none

/-- Pure dotted-path read (no auto-vivification): the observer used to state
what value a path holds in a store. -/
def lookupPath : List String → Store → Option PyVal
  | [], _ => none
  | [k], store => assocFind k store
  | k :: k2 :: rest, store =>
    match assocFind k store with
    | some (PyVal.dict sub) => lookupPath (k2 :: rest) sub
    | _ => none

mutual
/-- Modelled from the spec: `dict_deep_update` (tartist/core/utils/meta.py is
not part of the provided sources; §4.1 says `load(spec, override)` "merges or
replaces settings from a mapping").  Recursive dict merge: a dict value over
a dict value merges recursively, anything else overwrites. -/
def deepUpdateVal : PyVal → PyVal → PyVal
  | PyVal.dict a, PyVal.dict b => PyVal.dict (deepUpdateEntries a b)
  | _, b => b
termination_by a b => (sizeOf b, 0)
decreasing_by simp_wf <;> omega

/-- Merge every entry of the second assoc list into the first, in order. -/
def deepUpdateEntries : Store → Store → Store
  | a, [] => a
  | a, (k, v) :: rest => deepUpdateEntries (mergeOne a k v) rest
termination_by a l => (sizeOf l, 0)
decreasing_by all_goals simp_wf <;> omega

/-- Merge a single key/value pair into an assoc list (deep on dict/dict). -/
def mergeOne : Store → String → PyVal → Store
  | [], k, v => [(k, v)]
  | (k', v') :: t, k, v =>
    if k' = k then (k', deepUpdateVal v' v) :: t else (k', v') :: mergeOne t k v
termination_by l k v => (sizeOf v, sizeOf l)
decreasing_by all_goals simp_wf <;> omega
end

/-- `_Environ.load(env_spec, override)` (environ.py lines 37-43) for a
mapping spec: with `override` the whole tree is replaced by a deep copy of
the spec, otherwise the spec is deep-merged into the existing tree. -/
def envLoad (spec : Store) (override : Bool) (envs : Store) : Store :=
  if override then spec else deepUpdateEntries envs spec

/-- `with_env(env_spec, override)` (environ.py lines 186-197).  The block
body is modelled as a function from the settings tree at entry to the tree
it leaves behind plus a flag telling whether it raised.  The generator has
no `try`/`finally` around its `yield`: when the body raises, the exception
is thrown into the generator at the yield point and the restore line
`env.envs = backup` never runs; on normal exit the backup (taken before the
load: a reference to the old tree under `override`, rebound away by `load`,
or a deep copy otherwise — in both cases the value of the tree at entry) is
installed.  Returns the settings tree after exit and whether the exception
propagated. -/
def withEnv (spec : Store) (override : Bool) (body : Store → Store × Bool)
    (s0 : Store) : Store × Bool :=
  let s1 := envLoad spec override s0
  let r := body s1
  if r.2 then (r.1, true) else (s0, false)

/-! ### 2. Trajectory pair pool — libhpref/pcollector.py lines 172-230

The pool keeps `_TrajectoryPairWrapper(priority, count, pair)` namedtuples in
a `sortedcollections.SortedList`, ordered by the tuple's lexicographic
order; `count` comes from a monotone `itertools.count()` so no two entries
compare equal and the `pair` component never takes part in a comparison.
Priorities are summed variances (Python floats), modelled as `Rat`; the pair
payload is modelled as an opaque numeric tag. -/

structure PoolEntry where
  priority : Rat
  count : Nat
  pairId : Nat
deriving Repr, DecidableEq

/-- Strict lexicographic order on the `(priority, count)` key, as used by
the sorted list (the `pair` field is never reached). -/
def entryLt (a b : PoolEntry) : Bool :=
  a.priority < b.priority || (a.priority = b.priority && a.count < b.count)

/-- `SortedList.add`: insert keeping the list sorted ascending. -/
def sortedAdd (e : PoolEntry) : List PoolEntry → List PoolEntry
  | [] => [e]
  | x :: xs => if entryLt e x then e :: x :: xs else x :: sortedAdd e xs

structure Pool where
  data : List PoolEntry
  counter : Nat
  maxlen : Nat
deriving Repr, DecidableEq

/-- `TrajectoryPairPool.__init__(maxlen)`: empty sorted list, fresh counter. -/
def Pool.empty (maxlen : Nat) : Pool := ⟨[], 0, maxlen⟩

/-- `TrajectoryPairPool.push` (pcollector.py lines 197-205): wrap the pair
with the current counter value, add it to the sorted list, and **when the
list size reaches `maxlen`** evict the entry at index 0, i.e. the one with
the globally smallest `(priority, count)` key. -/
def Pool.push (p : Pool) (priority : Rat) (pairId : Nat) : Pool :=
  let d := sortedAdd ⟨priority, p.counter, pairId⟩ p.data
  let d := if d.length = p.maxlen then d.drop 1 else d
  { data := d, counter := p.counter + 1, maxlen := p.maxlen }

/-- `TrajectoryPairPool.pop` (pcollector.py lines 207-211): on an empty pool
return `(None, None)`; otherwise remove and return the last (largest-key)
element of the sorted list. -/
def Pool.pop (p : Pool) : Option PoolEntry × Pool :=
  match p.data.getLast? with
  | none => (none, p)
  | some e => (some e, { p with data := p.data.dropLast })

/-- Push a sequence of pairs: pair `i` gets priority `pr i` and payload tag
`i`, for `i = 0, …, n-1`, into a pool of capacity `cap`. -/
def pushSeq (cap : Nat) (pr : Nat → Rat) (n : Nat) : Pool :=
  (List.range n).foldl (fun p i => p.push (pr i) i) (Pool.empty cap)

/-- The entry created by the `i`-th push of `pushSeq`. -/
def seqEntry (pr : Nat → Rat) (i : Nat) : PoolEntry := ⟨pr i, i, i⟩

/-- Invariant of every reachable pool: the sorted list is strictly
ascending in the `(priority, count)` key, and every stored count was drawn
from the counter before its current value. -/
def PoolInv (p : Pool) : Prop :=
  p.data.Pairwise (fun a b => entryLt a b = true) ∧
    ∀ x ∈ p.data, x.count < p.counter

/-! ### 3. Variable fetching — tartist/nn/tfutils.py lines 59-75

A TF session is modelled by the set of variables whose initializer has run
plus their values.  `session.run(var)` on an uninitialized variable raises
`tf.errors.FailedPreconditionError`; `session.run(var.initializer)` marks it
initialized.  Python exception classes relevant here are enumerated in
`PyExc`; resolving an exception-class expression `tf.errors.<name>` in an
`except` clause performs an attribute lookup on the `tf.errors` module — if
the attribute does not exist, the lookup itself raises `AttributeError`,
which replaces the in-flight exception. -/

structure Session where
  initialized : List Nat
  value : Nat → Int

inductive PyExc : Type where
  | failedPreconditionError
  | valueError
  | attributeError
deriving Repr, DecidableEq

/-- `session.run(var)` for a single variable. -/
def sessionRunVar (v : Nat) (s : Session) : Except PyExc Int :=
  if v ∈ s.initialized then Except.ok (s.value v)
  else Except.error PyExc.failedPreconditionError

/-- `session.run(var.initializer)`. -/
def sessionRunInit (v : Nat) (s : Session) : Session :=
  { s with initialized := v :: s.initialized }

/-- `session.run(var_list)`: fails if any listed variable is uninitialized. -/
def sessionRunVars (vs : List Nat) (s : Session) : Except PyExc (List Int) :=
  if vs.all (fun v => v ∈ s.initialized) then Except.ok (vs.map s.value)
  else Except.error PyExc.failedPreconditionError

/-- The attributes of the `tf.errors` module that matter here.  The module
exposes `FailedPreconditionError` (among the other canonical TF error
classes); it has **no** attribute named `FailedPredictionError`. -/
def tfErrorsAttrs : List String :=
  ["OpError", "FailedPreconditionError", "InvalidArgumentError",
   "NotFoundError", "OutOfRangeError", "CancelledError", "UnknownError",
   "PermissionDeniedError", "UnauthenticatedError",
   "ResourceExhaustedError", "AbortedError", "AlreadyExistsError",
   "DataLossError", "DeadlineExceededError", "InternalError",
   "UnavailableError", "UnimplementedError"]

/-- `fetch_variable(var, session)` (tfutils.py lines 59-66): run the
variable; on `FailedPreconditionError` run its initializer and retry the
fetch once. -/
def fetchVariable (v : Nat) (s : Session) : Except PyExc Int × Session :=
  match sessionRunVar v s with
  | Except.ok x => (Except.ok x, s)
  | Except.error e =>
    if e = PyExc.failedPreconditionError then
      let s' := sessionRunInit v s
      (sessionRunVar v s', s')
    else (Except.error e, s)

/-- `fetch_variables(var_list, session)` (tfutils.py lines 69-75): run the
whole list; the `except` clause names `tf.errors.FailedPredictionError`, an
attribute the `tf.errors` module does not have, so when the batch run raises
`FailedPreconditionError` the handler-class lookup raises `AttributeError`
in its place and the explicit `raise ValueError(...)` body is unreachable. -/
def fetchVariables (vs : List Nat) (s : Session) : Except PyExc (List Int) × Session :=
  match sessionRunVars vs s with
  | Except.ok xs => (Except.ok xs, s)
  | Except.error e =>
    if "FailedPredictionError" ∈ tfErrorsAttrs then
      -- unreachable: the handler class would have to match `e` here
      if e = PyExc.failedPreconditionError then (Except.error PyExc.valueError, s)
      else (Except.error e, s)
    else (Except.error PyExc.attributeError, s)

/-! ### 4. HPA3C gated training loop — libhpref/train.py lines 54-88

The trainer runtime dict is modelled by the fields the loop touches, plus a
ghost counter of optimization steps actually performed.  `ready` is the
boolean outcome of `self.env.pcollector.ready_for_step(self.epoch)` for the
attempt. -/

structure HPState where
  iter : Nat
  zeroIter : Bool
  nrOptSteps : Nat
deriving Repr, DecidableEq

/-- Modelled from the spec: `SimpleTrainer._wrapped_run_step`
(tartist/nn/train is not part of the provided sources; §4.6's run-step
performs one actual optimization step).  Recorded on the ghost counter. -/
def superWrappedRunStep (s : HPState) : HPState :=
  { s with nrOptSteps := s.nrOptSteps + 1 }

/-- `HPA3CTrainer._wrapped_run_step` (train.py lines 84-88): run the real
step and report success only when the collector is ready for this epoch. -/
def hpWrappedRunStep (ready : Bool) (s : HPState) : HPState × Bool :=
  if ready then (superWrappedRunStep s, true) else (s, false)

/-- One iteration attempt of the `while` loop body in `HPA3CTrainer.train`
(train.py lines 63-76): the `iter == 0` dry run fires the epoch/iter events
without an optimization step and always succeeds; otherwise the gated step
runs; on success the iteration counter advances by one and `zero_iter` is
cleared. -/
def hpAttempt (ready : Bool) (s : HPState) : HPState :=
  let r := if s.iter = 0 then (s, true) else hpWrappedRunStep ready s
  if r.2 then { r.1 with iter := r.1.iter + 1, zeroIter := false } else r.1

/-- The `while self.runtime['iter'] <= self.nr_iters and not self.stop_signal`
loop, driven by a finite schedule of readiness outcomes (one per attempt). -/
def hpTrainLoop (nrIters : Nat) (stop : Bool) : List Bool → HPState → HPState
  | [], s => s
  | r :: rs, s =>
    if s.iter ≤ nrIters ∧ ¬stop then hpTrainLoop nrIters stop rs (hpAttempt r s)
    else s

/-! ### 5. Summary history manager — trainer_enhancer/summary.py lines 22-107

Scalar values are Python floats, modelled as `Rat`; `1e-4` is `1/10000` in
this model.  `average` returns a float, the string `'N/A'`, or Python
`None` (the untyped-key fall-through has no `return`); `max([])` raises
`ValueError` — these four outcomes form `AvgResult`. -/

inductive SummaryType : Type where
  | scalar
  | asyncScalar
  | unknown
deriving Repr, DecidableEq

structure SummaryManager where
  summaries : List (String × List Rat)
  types : List (String × SummaryType)
  lastQuery : List (String × Nat)

/-- Generic assoc-list read used for the manager's three dicts. -/
def alistFind {α : Type} (k : String) : List (String × α) → Option α
  | [] => none
  | (k', v) :: t => if k' = k then some v else alistFind k t

/-- `SummaryHistoryManager.get_type` (summary.py lines 67-68). -/
def SummaryManager.getType (m : SummaryManager) (key : String) : SummaryType :=
  (alistFind key m.types).getD SummaryType.unknown

inductive AvgMeth : Type where
  | avg
  | maxm
  | sum
deriving Repr, DecidableEq

inductive AvgResult : Type where
  | val : Rat → AvgResult
  | na : AvgResult
  | pyNone : AvgResult
  | err : AvgResult
deriving Repr, DecidableEq

/-- Python `max(values)`: the largest element, `ValueError` on the empty
list. -/
def pyMax : List Rat → Option Rat
  | [] => none
  | x :: xs => some (xs.foldl max x)

/-- `SummaryHistoryManager._do_average` (summary.py lines 76-83). -/
def doAverage (values : List Rat) (meth : AvgMeth) : Option Rat :=
  match meth with
  | AvgMeth.avg => some (values.sum / (values.length + 1 / 10000))
  | AvgMeth.maxm => pyMax values
  | AvgMeth.sum => some values.sum

/-- Python `values[-top_k:]`: for `top_k = 0` the whole list (CPython's
`-0 == 0` slice degenerate case), otherwise the last `top_k` elements. -/
def pySliceLast (l : List Rat) (k : Nat) : List Rat :=
  if k = 0 then l else l.drop (l.length - k)

/-- `SummaryHistoryManager.average` (summary.py lines 85-101).  `top_k =
none` is Python `top_k=None`, replaced by `len(values)` on the scalar path;
async-scalar keys only consume values recorded since the last query and
report `'N/A'` when none arrived; a key of unknown type falls off the end
of the `if` chain and returns `None`. -/
def SummaryManager.average (m : SummaryManager) (key : String)
    (topK : Option Nat) (meth : AvgMeth) : AvgResult :=
  match m.getType key with
  | SummaryType.scalar =>
    let values := (alistFind key m.summaries).getD []
    let k := topK.getD values.length
    let values := pySliceLast values k
    match doAverage values meth with
    | some q => AvgResult.val q
    | none => AvgResult.err
  | SummaryType.asyncScalar =>
    let values := (alistFind key m.summaries).getD []
    let lq := (alistFind key m.lastQuery).getD 0
    let values := values.drop lq
    if values.length ≠ 0 then
      match doAverage values meth with
      | some q => AvgResult.val q
      | none => AvgResult.err
    else AvgResult.na
  | SummaryType.unknown => AvgResult.pyNone

/-! ### 6. RL environments — tartist/app/rl/custom/simple.py and
tartist/app/rl/utils.py

The RL base classes (tartist/app/rl/base.py) are not part of the provided
sources.  Modelled from the spec (§4.3): `action(a)` validates `a` against
the discrete action space and calls the subclass `_action`; `restart()`
calls `_restart`; a proxy delegates `restart` to its inner environment, so
`LimitLengthProxyRLEnviron._restart`'s `super()._restart()` restarts the
wrapped environment before the proxy resets its step counter.  Sources in
src/ provide the concrete `_action`/`_restart` bodies embedded below. -/

/-- `MoveRightRLEnviron._action` (simple.py lines 32-40) on a position
`pos` with board `size`: action 1 moves right with reward +1, any other
action moves left clamped at 0 with reward −1; the episode is over once the
new position reaches `size - 1`.  Python's `max(0, pos - 1)` coincides with
truncated `Nat` subtraction. -/
def moveRightAction (size : Nat) (pos : Nat) (a : Nat) : Nat × Int × Bool :=
  if a = 1 then (pos + 1, 1, decide (size - 1 ≤ pos + 1))
  else (pos - 1, -1, decide (size - 1 ≤ pos - 1))

/-- `MoveRightRLEnviron._restart` (simple.py lines 42-43) with the default
argument: position 0. -/
def moveRightRestart : Nat := 0

/-- Position after `k` `MOVE_RIGHT` actions from a restart. -/
def rightPos (size : Nat) : Nat → Nat
  | 0 => moveRightRestart
  | k + 1 => (moveRightAction size (rightPos size k) 1).1

/-- The result of the `(k+1)`-th consecutive `MOVE_RIGHT` action. -/
def rightStep (size k : Nat) : Nat × Int × Bool :=
  moveRightAction size (rightPos size k) 1

/-- State of `LimitLengthProxyRLEnviron` wrapped around a
`MoveRightRLEnviron`: the inner position plus the proxy's step counter. -/
structure LLState where
  pos : Nat
  cnt : Nat
deriving Repr, DecidableEq

/-- `LimitLengthProxyRLEnviron._action` (utils.py lines 38-43): step the
inner environment, bump the counter, and force `is_over` once the counter
reaches the limit. -/
def llAction (size limit : Nat) (s : LLState) (a : Nat) : LLState × Int × Bool :=
  let r := moveRightAction size s.pos a
  let cnt := s.cnt + 1
  (⟨r.1, cnt⟩, r.2.1, r.2.2 || decide (limit ≤ cnt))

/-- `LimitLengthProxyRLEnviron._restart` (utils.py lines 45-47): restart
the inner environment and reset the counter. -/
def llRestart : LLState := ⟨moveRightRestart, 0⟩

/-- `AutoRestartProxyRLEnviron._action` (utils.py lines 16-21) around the
limited MoveRight environment: step the inner chain; when it reports
episode-over, `finish()` (a no-op for MoveRight) and `restart()` the chain
before returning the same `(reward, is_over)`. -/
def arAction (size limit : Nat) (s : LLState) (a : Nat) : LLState × Int × Bool :=
  let r := llAction size limit s a
  (if r.2.2 then llRestart else r.1, r.2.1, r.2.2)

/-! ### 7. Image grid — tartist/image/visualize.py lines 22-72

An image of shape (h, w, c) is a list of `h` rows, each a list of `w`
pixels, each a list of `c` channel values (an integer per channel —
`image_grid` never touches pixel contents).  `np.hstack` concatenates the
rows of its arguments pointwise, `np.vstack` concatenates the row lists. -/

abbrev Pixel := List Int

abbrev Img := List (List Pixel)

/-- Shape predicate: `img` is an (h, w, c) array. -/
def ImgShape (img : Img) (h w c : Nat) : Prop :=
  img.length = h ∧ ∀ row ∈ img, row.length = w ∧ ∀ px ∈ row, px.length = c

/-- `np.hstack` of two images: pointwise row concatenation. -/
def hstack2 (a b : Img) : Img := a.zipWith (fun r s => r ++ s) b

/-- `np.hstack` of a list of images. -/
def npHstack : List Img → Img
  | [] => []
  | m :: rest => rest.foldl hstack2 m

/-- `np.vstack` of a list of images: row lists concatenated. -/
def npVstack (ms : List Img) : Img := ms.flatten

inductive Axis : Type where
  | h
  | v
deriving Repr, DecidableEq

/-- A parsed grid-description token: a bare `"h"`/`"v"` (count auto
inferred) or `"<N>h"`/`"<N>v"`. -/
inductive GridToken : Type where
  | bare : Axis → GridToken
  | sized : Nat → Axis → GridToken
deriving Repr, DecidableEq

/-- The `axes_info` construction of `image_grid` (visualize.py lines
33-48): walk the description accumulating `(length, axis)` entries, divide
the running `auto_infer_dim` (initially the number of images) by each
explicit count — the `assert auto_infer_dim % length == 0` becomes a `none`
result — then substitute the remaining dimension for every bare token. -/
def buildAxesInfo (nrImages : Nat) (desc : List GridToken) :
    Option (List (Option Nat × Axis) × Nat) :=
  desc.foldlM
    (fun acc d =>
      match d with
      | GridToken.bare ax => some (acc.1 ++ [(none, ax)], acc.2)
      | GridToken.sized n ax =>
        if n ≠ 0 ∧ acc.2 % n = 0 then some (acc.1 ++ [(some n, ax)], acc.2 / n)
        else none)
    ([], nrImages)

/-- The fully resolved `axes_info` list (second pass, lines 46-48). -/
def axesInfo (nrImages : Nat) (desc : List GridToken) :
    Option (List (Nat × Axis)) :=
  match buildAxesInfo nrImages desc with
  | none => none
  | some (infos, autoDim) =>
    some (infos.map (fun i => ((i.1.getD autoDim), i.2)))

/-- The inner `stack` helper (lines 50-56): a singleton sequence is
returned as is, otherwise it is h- or v-stacked. -/
def stackAx (ax : Axis) : List Img → Img
  | [x] => x
  | seq => match ax with
    | Axis.h => npHstack seq
    | Axis.v => npVstack seq

/-- The `recursive_concat` helper (lines 60-70): the last axis stacks its
sequence directly; an earlier axis splits the sequence into `nr` contiguous
parts of length `len(sequence) // nr`, recurses on each, and stacks the
parts.  (The empty-axes case cannot be reached through `imageGrid`.) -/
def recursiveConcat : List (Nat × Axis) → List Img → Img
  | [], _ => []
  | [(_, ax)], seq => stackAx ax seq
  | (nr, ax) :: rest1 :: rest, seq =>
    let len := seq.length / nr
    stackAx ax ((List.range nr).map
      (fun j => recursiveConcat (rest1 :: rest) ((seq.drop (j * len)).take len)))

/-- `image_grid(all_images, grid_desc)` (visualize.py lines 22-72); `none`
is a failed `assert` (or the unreachable empty description). -/
def imageGrid (imgs : List Img) (desc : List GridToken) : Option Img :=
  if desc = [] then none
  else
    match axesInfo imgs.length desc with
    | none => none
    | some axes => some (recursiveConcat axes imgs)

/-! ### 8. Variance-window video selection —
libhpref/pcollector.py lines 89-133

A worker-buffer entry is a `(state, observation, action, variance)` tuple;
`_try_post_video` fires when the deque holds exactly `window_length`
entries.  Payloads are opaque type parameters; the variance (`d[-1]`) is a
`Rat`. -/

structure TrajEntry (σ ω α : Type) where
  state : σ
  obs : ω
  act : α
  variance : Rat
deriving Repr, DecidableEq

/-- `data[i][-1]` with NumPy-free indexing: the variance at index `i`
(defaulting to 0 outside the buffer; in-range in all uses). -/
def varAt (vars : List Rat) (i : Nat) : Rat := vars.getD i 0

/-- Sum of the variances of the length-`len` run starting at `start`. -/
def windowSum (vars : List Rat) (start len : Nat) : Rat :=
  ((vars.drop start).take len).sum

/-- The sliding scan of `_try_post_video` (lines 110-118) after `n` loop
iterations (loop variable `i = vlen, …, vlen + n - 1`): returns
`(current_sum, max_sum, max_idx)`.  Each iteration subtracts
`data[i - vlen][-1]`, adds `data[i][-1]`, and on a strict improvement
records `max_idx = i - vlen`. -/
def videoScan (vars : List Rat) (vlen : Nat) : Nat → Rat × Rat × Nat
  | 0 => ((vars.take vlen).sum, (vars.take vlen).sum, 0)
  | n + 1 =>
    let p := videoScan vars vlen n
    let i := vlen + n
    let cur := p.1 - varAt vars (i - vlen) + varAt vars i
    if p.2.1 < cur then (cur, cur, i - vlen) else (cur, p.2.1, p.2.2)

/-- The result of one `_try_post_video` trigger: the extracted start index
and subsequences, the variance handed to `_try_post_pair` (the pair's
priority contribution), and the entries left in the deque. -/
structure PostVideo (σ ω α : Type) where
  startIdx : Nat
  states : List σ
  observations : List ω
  actions : List α
  priority : Rat
  remaining : List (TrajEntry σ ω α)
deriving Repr

/-- `PreferenceCollector._try_post_video(data)` (lines 108-133) with
`video_length = vlen` and `window_length = wlen` (`len(data) = wlen` at the
call site): run the sliding scan over `i = vlen, …, wlen - 1`, then
`popleft` `max_idx` entries and extract the next `vlen` entries, posting
`max_sum` as the variance. -/
def tryPostVideo {σ ω α : Type} (vlen wlen : Nat)
    (data : List (TrajEntry σ ω α)) : PostVideo σ ω α :=
  let vars := data.map (fun d => d.variance)
  let scan := videoScan vars vlen (wlen - vlen)
  let maxIdx := scan.2.2
  let extracted := (data.drop maxIdx).take vlen
  { startIdx := maxIdx
    states := extracted.map (fun d => d.state)
    observations := extracted.map (fun d => d.obs)
    actions := extracted.map (fun d => d.act)
    priority := scan.2.1
    remaining := data.drop (maxIdx + vlen) }

/-! ## Theorems -/

/-! ### Configuration store (C1, C3) -/

theorem assocFind_assocSet (k : String) (v : PyVal) (s : Store) :
    assocFind k (assocSet k v s) = some v := by
  induction s with
  | nil => simp [assocSet, assocFind]
  | cons hd t ih =>
    obtain ⟨k', v'⟩ := hd
    by_cases hk : k' = k
    · simp [assocSet, assocFind, hk]
    · simp [assocSet, assocFind, hk, ih]

theorem lookupPath_nil_store : ∀ (p : List String), lookupPath p [] = none := by
  intro p
  match p with
  | [] => rfl
  | [k] => rfl
  | k :: k2 :: r => simp [lookupPath, assocFind]

/-- A `get` with `default=None` never changes the value observable at the
looked-up path, and returns exactly that value. -/
theorem envGet_none_frame :
    ∀ (path : List String) (s : Store) (r : Option PyVal) (s' : Store),
      envGet path none s = some (r, s') →
      r = lookupPath path s ∧ lookupPath path s' = lookupPath path s := by
  intro path
  induction path with
  | nil => intro s r s' h; simp [envGet] at h
  | cons k rest ih =>
    intro s r s' h
    cases rest with
    | nil =>
      cases hf : assocFind k s with
      | some v =>
        simp only [envGet, hf, Option.some.injEq, Prod.mk.injEq] at h
        obtain ⟨hr, hs⟩ := h
        subst hr hs
        simp [lookupPath, hf]
      | none =>
        simp only [envGet, hf, Option.some.injEq, Prod.mk.injEq] at h
        obtain ⟨hr, hs⟩ := h
        subst hr hs
        simp [lookupPath, hf]
    | cons k2 rest2 =>
      cases hf : assocFind k s with
      | none =>
        cases hsub : envGet (k2 :: rest2) none [] with
        | none => simp [envGet, hf, hsub] at h
        | some pr =>
          obtain ⟨rr, sub⟩ := pr
          simp only [envGet, hf, hsub, Option.some.injEq, Prod.mk.injEq] at h
          obtain ⟨hr, hs⟩ := h
          subst hr hs
          obtain ⟨h1, h2⟩ := ih [] rr sub hsub
          rw [lookupPath_nil_store] at h1 h2
          constructor
          · simp [h1, lookupPath, hf]
          · simp [lookupPath, assocFind_assocSet, h2, hf]
      | some v =>
        cases v with
        | int n => simp [envGet, hf] at h
        | str t => simp [envGet, hf] at h
        | dict sub =>
          cases hsub : envGet (k2 :: rest2) none sub with
          | none => simp [envGet, hf, hsub] at h
          | some pr =>
            obtain ⟨rr, sub'⟩ := pr
            simp only [envGet, hf, hsub, Option.some.injEq, Prod.mk.injEq] at h
            obtain ⟨hr, hs⟩ := h
            subst hr hs
            obtain ⟨h1, h2⟩ := ih sub rr sub' hsub
            constructor
            · simp [h1, lookupPath, hf]
            · simp [lookupPath, assocFind_assocSet, h2, hf]

/-- C1, counterexample.  The claim asserts that `get(key, None)` leaves
the entire store unmodified for every key; but on an empty store,
`get("x.y", None)` auto-creates the intermediate mapping `x`, so the store
afterwards is `{"x": {}}`, not the empty store. -/
theorem c1_counterexample :
    envGet ["x", "y"] none [] = some (none, [("x", PyVal.dict [])]) ∧
      ([("x", PyVal.dict [])] : Store) ≠ [] := by
  exact ⟨rfl, by simp⟩

/-- C1, amended.  `get("x.y", 5)` on the empty store returns `5` and
stores it, so a subsequent `get("x.y")` with no default also returns `5`;
`get(key, None)` never stores a value at the looked-up key itself (the
value observable at the key is mutated only when a non-absent default is
supplied) and leaves the store entirely unmodified for single-segment
keys — but for dotted keys it auto-creates missing intermediate
mappings, so the store as a whole can change. -/
theorem c1_amended :
    envGet ["x", "y"] (some (PyVal.int 5)) []
        = some (some (PyVal.int 5), [("x", PyVal.dict [("y", PyVal.int 5)])]) ∧
    envGet ["x", "y"] none [("x", PyVal.dict [("y", PyVal.int 5)])]
        = some (some (PyVal.int 5), [("x", PyVal.dict [("y", PyVal.int 5)])]) ∧
    (∀ (k : String) (s : Store), envGet [k] none s = some (assocFind k s, s)) ∧
    (∀ (path : List String) (s : Store) (r : Option PyVal) (s' : Store),
      envGet path none s = some (r, s') →
      r = lookupPath path s ∧ lookupPath path s' = lookupPath path s) := by
  refine ⟨rfl, rfl, ?_, envGet_none_frame⟩
  intro k s
  simp only [envGet]
  cases hf : assocFind k s <;> simp

theorem c1_witness :
    none = lookupPath ["x", "y"] ([] : Store) ∧
      lookupPath ["x", "y"] [("x", PyVal.dict [])] = lookupPath ["x", "y"] ([] : Store) :=
  c1_amended.2.2.2 ["x", "y"] [] none [("x", PyVal.dict [])] rfl

/-- C3, counterexample.  The claim asserts the settings tree after `with_env`
exits equals the tree before entry even when the body raises; but the
context manager's `yield` is not wrapped in `try`/`finally`, so a raising
body leaves the overridden tree installed: starting from `{"a": 1}` and
overriding with `{"a": 2}`, a body that raises immediately exits with the
tree still `{"a": 2}`. -/
theorem c3_counterexample :
    withEnv [("a", PyVal.int 2)] true (fun s => (s, true)) [("a", PyVal.int 1)]
        = ([("a", PyVal.int 2)], true) ∧
      ([("a", PyVal.int 2)] : Store) ≠ [("a", PyVal.int 1)] := by
  refine ⟨rfl, by simp⟩

/-- C3, amended.  `with_env` swaps the settings tree for the duration of
the block and restores the prior tree on **normal** exit, whatever the
block body did to the tree; when the body raises, the exception propagates
and the restore is skipped, leaving the tree the body ended with. -/
theorem c3_amended (spec : Store) (override : Bool) (body : Store → Store × Bool)
    (s0 : Store) (h : (body (envLoad spec override s0)).2 = false) :
    withEnv spec override body s0 = (s0, false) := by
  simp [withEnv, h]

theorem c3_witness :
    withEnv [("a", PyVal.int 2)] true (fun s => (s, false)) [("a", PyVal.int 1)]
        = ([("a", PyVal.int 1)], false) :=
  c3_amended [("a", PyVal.int 2)] true (fun s => (s, false)) [("a", PyVal.int 1)] rfl

/-! ### Trajectory pair pool (C2) -/

theorem entryLt_iff (a b : PoolEntry) :
    entryLt a b = true ↔
      a.priority < b.priority ∨ (a.priority = b.priority ∧ a.count < b.count) := by
  simp [entryLt]

theorem entryLt_trans {a b c : PoolEntry} (h1 : entryLt a b = true)
    (h2 : entryLt b c = true) : entryLt a c = true := by
  rw [entryLt_iff] at h1 h2 ⊢
  rcases h1 with h1 | ⟨h1, h1'⟩ <;> rcases h2 with h2 | ⟨h2, h2'⟩
  · exact Or.inl (lt_trans h1 h2)
  · exact Or.inl (h2 ▸ h1)
  · exact Or.inl (h1 ▸ h2)
  · exact Or.inr ⟨h1.trans h2, lt_trans h1' h2'⟩

theorem entryLt_total_of_count_ne {a b : PoolEntry} (hne : a.count ≠ b.count)
    (h : ¬ entryLt a b = true) : entryLt b a = true := by
  rw [entryLt_iff] at h ⊢
  push_neg at h
  obtain ⟨h1, h2⟩ := h
  rcases lt_or_eq_of_le h1 with hp | hp
  · exact Or.inl hp
  · refine Or.inr ⟨hp, ?_⟩
    have := h2 hp.symm
    omega

theorem mem_sortedAdd {x e : PoolEntry} :
    ∀ {l : List PoolEntry}, x ∈ sortedAdd e l → x = e ∨ x ∈ l := by
  intro l
  induction l with
  | nil => intro h; simp [sortedAdd] at h; exact Or.inl h
  | cons y ys ih =>
    intro h
    simp only [sortedAdd] at h
    by_cases hlt : entryLt e y = true
    · rw [if_pos hlt] at h
      rcases List.mem_cons.mp h with h | h
      · exact Or.inl h
      · exact Or.inr h
    · rw [if_neg hlt] at h
      rcases List.mem_cons.mp h with h | h
      · exact Or.inr (h ▸ List.mem_cons_self y ys)
      · rcases ih h with h | h
        · exact Or.inl h
        · exact Or.inr (List.mem_cons_of_mem y h)

theorem sortedAdd_pairwise {e : PoolEntry} :
    ∀ {l : List PoolEntry}, l.Pairwise (fun a b => entryLt a b = true) →
      (∀ x ∈ l, x.count ≠ e.count) →
      (sortedAdd e l).Pairwise (fun a b => entryLt a b = true) := by
  intro l
  induction l with
  | nil => intro _ _; simp [sortedAdd]
  | cons y ys ih =>
    intro hp hc
    obtain ⟨hy, hys⟩ := List.pairwise_cons.mp hp
    simp only [sortedAdd]
    by_cases hlt : entryLt e y = true
    · rw [if_pos hlt]
      refine List.pairwise_cons.mpr ⟨?_, hp⟩
      intro z hz
      rcases List.mem_cons.mp hz with hz | hz
      · exact hz ▸ hlt
      · exact entryLt_trans hlt (hy z hz)
    · rw [if_neg hlt]
      refine List.pairwise_cons.mpr ⟨?_, ih hys (fun x hx => hc x (List.mem_cons_of_mem y hx))⟩
      intro z hz
      rcases mem_sortedAdd hz with hz | hz
      · subst hz
        exact entryLt_total_of_count_ne
          (fun hcc => hc y (List.mem_cons_self y ys) hcc.symm) hlt
      · exact hy z hz

theorem sortedAdd_append {e : PoolEntry} :
    ∀ {l : List PoolEntry}, (∀ x ∈ l, entryLt e x = false) →
      sortedAdd e l = l ++ [e] := by
  intro l
  induction l with
  | nil => intro _; rfl
  | cons y ys ih =>
    intro h
    simp only [sortedAdd]
    rw [if_neg (by simp [h y (List.mem_cons_self y ys)]),
      ih (fun x hx => h x (List.mem_cons_of_mem y hx))]
    rfl

theorem push_poolInv (p : Pool) (pr : Rat) (pid : Nat) (h : PoolInv p) :
    PoolInv (p.push pr pid) := by
  obtain ⟨hp, hc⟩ := h
  have hadd : (sortedAdd ⟨pr, p.counter, pid⟩ p.data).Pairwise
      (fun a b => entryLt a b = true) :=
    sortedAdd_pairwise hp (fun x hx => Nat.ne_of_lt (hc x hx))
  have hmem : ∀ x ∈ sortedAdd ⟨pr, p.counter, pid⟩ p.data, x.count < p.counter + 1 := by
    intro x hx
    rcases mem_sortedAdd hx with hx | hx
    · subst hx; exact Nat.lt_succ_self _
    · exact Nat.lt_succ_of_lt (hc x hx)
  constructor
  · show (p.push pr pid).data.Pairwise _
    simp only [Pool.push]
    split
    · exact List.Pairwise.sublist (List.drop_sublist 1 _) hadd
    · exact hadd
  · intro x hx
    simp only [Pool.push] at hx ⊢
    split at hx
    · exact hmem x (List.mem_of_mem_drop hx)
    · exact hmem x hx

theorem pushSeq_succ (cap : Nat) (pr : Nat → Rat) (m : Nat) :
    pushSeq cap pr (m + 1) = (pushSeq cap pr m).push (pr m) m := by
  simp [pushSeq, List.range_succ]

theorem pushSeq_spec (cap : Nat) (hcap : 1 ≤ cap) (pr : Nat → Rat)
    (hmono : ∀ i j, i < j → pr i < pr j) :
    ∀ m, (pushSeq cap pr m).counter = m ∧ (pushSeq cap pr m).maxlen = cap ∧
      (pushSeq cap pr m).data
        = ((List.range m).map (seqEntry pr)).drop (m - min m (cap - 1)) := by
  intro m
  induction m with
  | zero => exact ⟨rfl, rfl, by simp [pushSeq, Pool.empty]⟩
  | succ m ih =>
    obtain ⟨hcnt, hmax, hdata⟩ := ih
    rw [pushSeq_succ]
    have hmemlt : ∀ x ∈ (pushSeq cap pr m).data,
        entryLt (⟨pr m, m, m⟩ : PoolEntry) x = false := by
      intro x hx
      rw [hdata] at hx
      have hx' := List.mem_of_mem_drop hx
      obtain ⟨i, hi, hfx⟩ := List.mem_map.mp hx'
      have him : i < m := List.mem_range.mp hi
      have hpi : pr i < pr m := hmono i m him
      subst hfx
      simp only [entryLt, seqEntry, Bool.or_eq_false_iff, Bool.and_eq_false_iff]
      constructor
      · simp [not_lt_of_gt hpi]
      · left; simp [ne_of_gt hpi]
    have hlen : (pushSeq cap pr m).data.length = min m (cap - 1) := by
      rw [hdata, List.length_drop, List.length_map, List.length_range]
      omega
    have hins : sortedAdd ⟨pr m, m, m⟩ (pushSeq cap pr m).data
        = (pushSeq cap pr m).data ++ [⟨pr m, m, m⟩] := sortedAdd_append hmemlt
    refine ⟨by simp [Pool.push, hcnt], by simp [Pool.push, hmax], ?_⟩
    simp only [Pool.push, hcnt, hmax, hins, List.length_append, hlen,
      List.length_singleton]
    rcases le_or_lt (cap - 1) m with hge | hlt
    · -- the buffer already holds `cap - 1` entries: the append reaches
      -- `maxlen` and the smallest entry is evicted
      have hmin : min m (cap - 1) = cap - 1 := min_eq_right hge
      rw [hmin, if_pos (by omega)]
      have hmin2 : min (m + 1) (cap - 1) = cap - 1 := min_eq_right (by omega)
      rw [hmin2, hdata, hmin, List.range_succ, List.map_append]
      rcases Nat.eq_or_lt_of_le hcap with h1 | h2
      · -- cap = 1: the pool is empty before and after
        have hc0 : cap - 1 = 0 := by omega
        rw [hc0]
        have hnil : List.drop (m - 0) (List.map (seqEntry pr) (List.range m)) = [] :=
          List.drop_eq_nil_of_le (by simp)
        rw [hnil, List.nil_append]
        have hnil2 : List.drop (m + 1 - 0)
            (List.map (seqEntry pr) (List.range m) ++ List.map (seqEntry pr) [m]) = [] :=
          List.drop_eq_nil_of_le (by simp)
        rw [hnil2]
        simp
      · -- cap ≥ 2: the retained suffix is nonempty
        rw [List.drop_append_of_le_length (by
            rw [List.length_drop, List.length_map, List.length_range]; omega),
          List.drop_drop,
          List.drop_append_of_le_length (by
            rw [List.length_map, List.length_range]; omega)]
        simp only [seqEntry, List.map_cons, List.map_nil]
        congr 2
        omega
    · -- still below capacity: nothing evicted
      have hmin : min m (cap - 1) = m := min_eq_left (by omega)
      rw [hmin, if_neg (by omega)]
      have hmin2 : min (m + 1) (cap - 1) = m + 1 := min_eq_left (by omega)
      rw [hmin2, hdata, hmin, List.range_succ, List.map_append]
      simp [seqEntry]

/-- C2, counterexample.  The claim asserts that pushing `N+1` pairs with
strictly increasing priorities into a pool of capacity `N` evicts exactly
the lowest-priority pair, the other `N` remaining; for `N = 3` and
priorities `1, 2, 3, 4`, the pool ends up holding only the pairs pushed
with priorities `3` and `4` — two pairs were evicted and only `2 ≠ 3`
remain, because `push` already evicts when the list size *reaches*
`maxlen`. -/
theorem c2_counterexample :
    (mkRat 1 1 < mkRat 2 1 ∧ mkRat 2 1 < mkRat 3 1 ∧ mkRat 3 1 < mkRat 4 1) ∧
      (pushSeq 3 (fun i => mkRat (i + 1) 1) 4).data.map (fun e => e.pairId) = [2, 3] ∧
      (pushSeq 3 (fun i => mkRat (i + 1) 1) 4).data.length ≠ 3 := by
  refine ⟨by decide, by decide, by decide⟩

/-- C2, amended.  Pushing `N+1` pairs (`N ≥ 1`) with strictly increasing
priorities into a pool of capacity `N` evicts the **two** lowest-priority
pairs, leaving the `N−1` highest in ascending order (eviction fires as
soon as the list size reaches `maxlen`, so the pool holds at most `N−1`
pairs after any push); on any reachable (strictly sorted) nonempty pool,
`pop` removes and returns the entry with the greatest `(priority,
insertion-counter)` key — so repeated pops come out in strictly decreasing
key order, with the most recently inserted first among equal priorities —
and `pop` on an empty pool returns an absent pair. -/
theorem c2_amended :
    (∀ (N : Nat) (pr : Nat → Rat), 1 ≤ N → (∀ i j, i < j → pr i < pr j) →
      (pushSeq N pr (N + 1)).data = ((List.range (N + 1)).map (seqEntry pr)).drop 2) ∧
    (∀ p : Pool, p.data = [] → p.pop = (none, p)) ∧
    (∀ p : Pool, PoolInv p → p.data ≠ [] →
      ∃ e, p.pop.1 = some e ∧ e ∈ p.data ∧
        (∀ x ∈ p.pop.2.data, entryLt x e = true) ∧ PoolInv p.pop.2) ∧
    (∀ (p : Pool) (pr : Rat) (pid : Nat), PoolInv p → PoolInv (p.push pr pid)) := by
  refine ⟨?_, ?_, ?_, fun p pr pid h => push_poolInv p pr pid h⟩
  · intro N pr hN hmono
    obtain ⟨-, -, hdata⟩ := pushSeq_spec N hN pr hmono (N + 1)
    rw [hdata]
    congr 1
    omega
  · intro p hp
    unfold Pool.pop
    rw [hp]
    rfl
  · intro p hinv hne
    obtain ⟨hp, hc⟩ := hinv
    rcases List.eq_nil_or_concat p.data with h0 | ⟨l, e, hle0⟩
    · exact absurd h0 hne
    have hle : p.data = l ++ [e] := by rw [hle0, List.concat_eq_append]
    have hlast : p.data.getLast? = some e := by rw [hle]; simp
    have hdrop : p.data.dropLast = l := by rw [hle]; simp
    have hpop : p.pop = (some e, { p with data := l }) := by
      unfold Pool.pop
      rw [hlast, hdrop]
    rw [hle] at hp
    have hsplit := List.pairwise_append.mp hp
    refine ⟨e, by rw [hpop], by rw [hle]; simp, ?_, ?_, ?_⟩
    · intro x hx
      rw [hpop] at hx
      exact hsplit.2.2 x hx e (List.mem_singleton_self e)
    · rw [hpop]
      exact hsplit.1
    · intro x hx
      rw [hpop] at hx ⊢
      exact hc x (by rw [hle]; exact List.mem_append_left _ hx)

theorem c2_witness :
    (pushSeq 3 (fun i => mkRat (i + 1) 1) (3 + 1)).data
        = ((List.range (3 + 1)).map (seqEntry (fun i => mkRat (i + 1) 1))).drop 2 ∧
      (Pool.empty 5).pop = (none, Pool.empty 5) :=
  ⟨c2_amended.1 3 (fun i => mkRat (i + 1) 1) (by decide)
      (fun i j hij => by
        show mkRat (i + 1 : Nat) 1 < mkRat (j + 1 : Nat) 1
        rw [Rat.mkRat_one, Rat.mkRat_one]
        exact_mod_cast Nat.add_lt_add_right hij 1),
    c2_amended.2.1 (Pool.empty 5) rfl⟩

/-! ### Variable fetching (C4) -/

/-- C4: the claim says a batch fetch with an uninitialized variable fails
with an InvalidState-class error raised explicitly (the `raise
ValueError(...)` in `fetch_variables`), while the single-variable fetch
self-heals.  The self-healing half is true, but the batch fetch never
reaches its `raise`: its `except` clause names
`tf.errors.FailedPredictionError`, a misspelling of
`FailedPreconditionError`, so resolving the handler class raises
`AttributeError` instead — evaluated here on a session where variable `0`
is uninitialized. -/
theorem c4_eval :
    (fetchVariables [0] ⟨[], fun _ => 0⟩).1 = Except.error PyExc.attributeError ∧
      (fetchVariables [0] ⟨[], fun _ => 0⟩).1 ≠ Except.error PyExc.valueError ∧
      (fetchVariable 0 ⟨[], fun _ => 0⟩).1 = Except.ok 0 ∧
      (fetchVariable 0 ⟨[], fun _ => 0⟩).2.initialized = [0] := by
  refine ⟨rfl, ?_, rfl, rfl⟩
  intro h
  exact PyExc.noConfusion (Except.error.inj h)

/-! ### HPA3C gated training loop (C5) -/

/-- C5: in `HPA3CTrainer`'s loop, on every non-zero iteration attempt, a
false collector readiness check leaves the runtime unchanged — the
iteration counter does not advance and no optimization step runs — while a
true readiness check performs exactly one optimization step and advances
the counter by exactly one. -/
theorem c5_gating (s : HPState) (h : s.iter ≠ 0) :
    hpAttempt false s = s ∧
      (hpAttempt true s).iter = s.iter + 1 ∧
      (hpAttempt true s).nrOptSteps = s.nrOptSteps + 1 := by
  simp [hpAttempt, hpWrappedRunStep, superWrappedRunStep, h]

theorem c5_witness :
    hpAttempt false ⟨5, false, 7⟩ = ⟨5, false, 7⟩ ∧
      (hpAttempt true ⟨5, false, 7⟩).iter = 5 + 1 ∧
      (hpAttempt true ⟨5, false, 7⟩).nrOptSteps = 7 + 1 :=
  c5_gating ⟨5, false, 7⟩ (by decide)

/-! ### Summary average (C6) -/

/-- C6: on a scalar-typed key with recorded values `[1,2,3,4]`,
`average(key, top_k=2, meth='avg')` returns `(3+4)/(2+1e-4)`, `'max'` over
the full list returns `4`, `'sum'` returns `10`; and in general the `avg`
method divides the sum of the last `top_k` recorded values (all of them if
fewer than `top_k` exist) by `len(values) + 1e-4` where `len(values)` is
the length of that window, i.e. `min top_k (number recorded)`. -/
theorem c6_average :
    (⟨[("k", [1, 2, 3, 4])], [("k", SummaryType.scalar)], []⟩ : SummaryManager).average
        "k" (some 2) AvgMeth.avg = AvgResult.val ((3 + 4) / (2 + 1 / 10000)) ∧
    (⟨[("k", [1, 2, 3, 4])], [("k", SummaryType.scalar)], []⟩ : SummaryManager).average
        "k" none AvgMeth.maxm = AvgResult.val 4 ∧
    (⟨[("k", [1, 2, 3, 4])], [("k", SummaryType.scalar)], []⟩ : SummaryManager).average
        "k" none AvgMeth.sum = AvgResult.val 10 ∧
    (∀ (m : SummaryManager) (key : String) (vs : List Rat) (k : Nat),
      1 ≤ k → m.getType key = SummaryType.scalar →
      alistFind key m.summaries = some vs →
      m.average key (some k) AvgMeth.avg
        = AvgResult.val ((vs.drop (vs.length - k)).sum / (min k vs.length + 1 / 10000))) := by
  refine ⟨?_, ?_, ?_, ?_⟩
  · simp [SummaryManager.average, SummaryManager.getType, alistFind, doAverage, pySliceLast]
  · simp [SummaryManager.average, SummaryManager.getType, alistFind, doAverage,
      pySliceLast, pyMax]
    norm_num [max_def]
  · simp [SummaryManager.average, SummaryManager.getType, alistFind, doAverage, pySliceLast]
    norm_num
  intro m key vs k hk htype hfind
  simp only [SummaryManager.average, htype, hfind, Option.getD_some]
  unfold pySliceLast
  rw [if_neg (by omega)]
  simp only [doAverage]
  have hlen : (vs.drop (vs.length - k)).length = min k vs.length := by
    rw [List.length_drop]; omega
  rw [hlen]

theorem c6_witness :
    (⟨[("k", [1, 2, 3, 4])], [("k", SummaryType.scalar)], []⟩ : SummaryManager).average
        "k" (some 2) AvgMeth.avg
      = AvgResult.val ((([1, 2, 3, 4] : List Rat).drop (([1, 2, 3, 4] : List Rat).length - 2)).sum
          / (min 2 ([1, 2, 3, 4] : List Rat).length + 1 / 10000)) :=
  c6_average.2.2.2 ⟨[("k", [1, 2, 3, 4])], [("k", SummaryType.scalar)], []⟩
    "k" [1, 2, 3, 4] 2 (by decide) rfl rfl

/-! ### RL environments (C7, C8) -/

/-- C7: wrapping `MoveRightRLEnviron(size=5)` in
`LimitLengthProxyRLEnviron(limit=3)` then `AutoRestartProxyRLEnviron` and
stepping `MOVE_RIGHT` three times from a restart yields `is_over = False`
on the first two steps, `is_over = True` on the third, and the chain is
auto-restarted (inner position back to 0, length counter back to 0) before
a fourth `action` call could run. -/
theorem c7_proxy_composition :
    (arAction 5 3 llRestart 1).2.2 = false ∧
      (arAction 5 3 (arAction 5 3 llRestart 1).1 1).2.2 = false ∧
      (arAction 5 3 (arAction 5 3 (arAction 5 3 llRestart 1).1 1).1 1).2.2 = true ∧
      (arAction 5 3 (arAction 5 3 (arAction 5 3 llRestart 1).1 1).1 1).1 = llRestart := by
  decide

/-- C8: for every `MoveRightRLEnviron` of size ≥ 2 restarted at position 0,
the position after `k` `MOVE_RIGHT` steps is `k`; every `MOVE_RIGHT` step
within the episode rewards `+1` and reports `is_over` exactly on the step
reaching position `size − 1` (and on no earlier step); and `MOVE_LEFT`
from position 0 rewards `−1` with the position clamped at 0. -/
theorem c8_move_right (size : Nat) (h : 2 ≤ size) :
    (∀ k, rightPos size k = k) ∧
    (∀ k, k < size - 1 →
      (rightStep size k).2.1 = 1 ∧ ((rightStep size k).2.2 = true ↔ k + 1 = size - 1)) ∧
    moveRightAction size 0 0 = (0, -1, false) := by
  have hpos : ∀ k, rightPos size k = k := by
    intro k
    induction k with
    | zero => rfl
    | succ k ih => simp [rightPos, moveRightAction, ih]
  refine ⟨hpos, ?_, ?_⟩
  · intro k hk
    unfold rightStep
    rw [hpos k]
    unfold moveRightAction
    rw [if_pos rfl]
    refine ⟨rfl, ?_⟩
    simp only [decide_eq_true_eq]
    omega
  · have hover : ¬ (size - 1 ≤ 0 - 1) := by omega
    simp [moveRightAction, hover]

theorem c8_witness :
    rightPos 5 3 = 3 ∧
      ((rightStep 5 2).2.1 = 1 ∧ ((rightStep 5 2).2.2 = true ↔ 2 + 1 = 5 - 1)) ∧
      moveRightAction 5 0 0 = (0, -1, false) :=
  ⟨(c8_move_right 5 (by decide)).1 3, (c8_move_right 5 (by decide)).2.1 2 (by decide),
    (c8_move_right 5 (by decide)).2.2⟩

/-! ### Image grid (C9) -/

theorem ImgShape_append {a b : Img} {h1 h2 w c : Nat}
    (ha : ImgShape a h1 w c) (hb : ImgShape b h2 w c) :
    ImgShape (a ++ b) (h1 + h2) w c := by
  obtain ⟨hal, har⟩ := ha
  obtain ⟨hbl, hbr⟩ := hb
  refine ⟨by simp [hal, hbl], ?_⟩
  intro row hrow
  rcases List.mem_append.mp hrow with hr | hr
  · exact har row hr
  · exact hbr row hr

theorem ImgShape_hstack2 :
    ∀ {a : Img} {b : Img} {h w1 w2 c : Nat}, ImgShape a h w1 c → ImgShape b h w2 c →
      ImgShape (hstack2 a b) h (w1 + w2) c := by
  intro a
  induction a with
  | nil =>
    intro b h w1 w2 c ha _
    obtain ⟨hal, -⟩ := ha
    refine ⟨?_, by simp [hstack2]⟩
    simp only [hstack2, List.zipWith_nil_left, List.length_nil]
    simpa using hal
  | cons r a' ih =>
    intro b h w1 w2 c ha hb
    cases b with
    | nil =>
      obtain ⟨hal, -⟩ := ha
      obtain ⟨hbl, -⟩ := hb
      simp only [List.length_cons, List.length_nil] at hal hbl
      omega
    | cons s b' =>
      obtain ⟨hal, har⟩ := ha
      obtain ⟨hbl, hbr⟩ := hb
      cases h with
      | zero => simp at hal
      | succ h' =>
        have iha : ImgShape a' h' w1 c :=
          ⟨by simpa using hal, fun row hr => har row (List.mem_cons_of_mem r hr)⟩
        have ihb : ImgShape b' h' w2 c :=
          ⟨by simpa using hbl, fun row hr => hbr row (List.mem_cons_of_mem s hr)⟩
        obtain ⟨hl, hr⟩ := ih iha ihb
        obtain ⟨hrw, hrp⟩ := har r (List.mem_cons_self r a')
        obtain ⟨hsw, hsp⟩ := hbr s (List.mem_cons_self s b')
        refine ⟨?_, ?_⟩
        · simpa [hstack2] using hl
        · intro row hrow
          rcases List.mem_cons.mp hrow with hro | hro
          · subst hro
            refine ⟨by simp [hrw, hsw], ?_⟩
            intro px hpx
            rcases List.mem_append.mp hpx with hp | hp
            · exact hrp px hp
            · exact hsp px hp
          · exact hr row hro

/-- C9: with 6 images all of shape (H, W, C) and grid description
`["3h", "2v"]`, `image_grid` succeeds and the mosaic has shape
(2H, 3W, C); with description `["h"]` and 4 images, the single bare axis
is inferred to count 4 and the result is the pointwise horizontal
concatenation of all 4 images in order. -/
theorem c9_image_grid :
    (∀ (hh ww cc : Nat) (imgs : List Img), imgs.length = 6 →
      (∀ img ∈ imgs, ImgShape img hh ww cc) →
      ∃ g, imageGrid imgs [GridToken.sized 3 Axis.h, GridToken.sized 2 Axis.v] = some g ∧
        ImgShape g (2 * hh) (3 * ww) cc) ∧
    axesInfo 4 [GridToken.bare Axis.h] = some [(4, Axis.h)] ∧
    (∀ a b c d : Img, imageGrid [a, b, c, d] [GridToken.bare Axis.h]
      = some (((a.zipWith (fun r s => r ++ s) b).zipWith (fun r s => r ++ s) c).zipWith
          (fun r s => r ++ s) d)) := by
  refine ⟨?_, rfl, fun a b c d => rfl⟩
  intro hh ww cc imgs hlen hshape
  rcases imgs with _ | ⟨a, _ | ⟨b, _ | ⟨c, _ | ⟨d, _ | ⟨e, _ | ⟨f, _ | ⟨g, rest⟩⟩⟩⟩⟩⟩⟩ <;>
    simp only [List.length_cons, List.length_nil] at hlen
  pick_goal 7
  · have ha := hshape a (by simp)
    have hb := hshape b (by simp)
    have hc := hshape c (by simp)
    have hd := hshape d (by simp)
    have he := hshape e (by simp)
    have hf := hshape f (by simp)
    refine ⟨hstack2 (hstack2 (a ++ b) (c ++ d)) (e ++ f), ?_, ?_⟩
    · simp [imageGrid, axesInfo, buildAxesInfo, recursiveConcat, stackAx, npHstack,
        npVstack, show List.range 3 = [0, 1, 2] from rfl]
    · have hsh := ImgShape_hstack2 (ImgShape_hstack2
        (ImgShape_append ha hb) (ImgShape_append hc hd)) (ImgShape_append he hf)
      have h2 : hh + hh = 2 * hh := by ring
      have h3 : ww + ww + ww = 3 * ww := by ring
      rw [h2, h3] at hsh
      exact hsh
  all_goals omega

theorem c9_witness :
    ∃ g, imageGrid [[[[0]]], [[[1]]], [[[2]]], [[[3]]], [[[4]]], [[[5]]]]
        [GridToken.sized 3 Axis.h, GridToken.sized 2 Axis.v] = some g ∧
      ImgShape g (2 * 1) (3 * 1) 1 :=
  c9_image_grid.1 1 1 1 [[[[0]]], [[[1]]], [[[2]]], [[[3]]], [[[4]]], [[[5]]]]
    rfl (by simp [ImgShape])

/-! ### Variance-window video selection (C10) -/

/-- C10: the claim says the extracted sub-sequence is a maximal-variance
contiguous run (earliest on ties) and the posted priority is that run's
summed variance.  On a buffer of `window_length = 2` entries with
variances `[0, 5]` and `video_length = 1`, the code records
`max_idx = i - video_length` — one position to the left of the window its
running sum covers — so it extracts the run at start 0 (summed variance 0)
while the run at start 1 has the strictly larger sum 5, and posts priority
5, which is not the extracted run's summed variance.  This contradicts the
collector's own docstring ("choosing the subsequent `video_length` frames
with largest summed variance"). -/
theorem c10_eval :
    (tryPostVideo 1 2 ([⟨0, 0, 0, (0 : Rat)⟩, ⟨1, 1, 1, 5⟩] :
        List (TrajEntry Int Int Int))).startIdx = 0 ∧
    (tryPostVideo 1 2 ([⟨0, 0, 0, (0 : Rat)⟩, ⟨1, 1, 1, 5⟩] :
        List (TrajEntry Int Int Int))).states = [0] ∧
    (tryPostVideo 1 2 ([⟨0, 0, 0, (0 : Rat)⟩, ⟨1, 1, 1, 5⟩] :
        List (TrajEntry Int Int Int))).priority = 5 ∧
    windowSum [(0 : Rat), 5] 0 1 = 0 ∧
    windowSum [(0 : Rat), 5] 1 1 = 5 ∧
    windowSum [(0 : Rat), 5] 0 1 < windowSum [(0 : Rat), 5] 1 1 ∧
    (tryPostVideo 1 2 ([⟨0, 0, 0, (0 : Rat)⟩, ⟨1, 1, 1, 5⟩] :
        List (TrajEntry Int Int Int))).priority
      ≠ windowSum [(0 : Rat), 5]
          (tryPostVideo 1 2 ([⟨0, 0, 0, (0 : Rat)⟩, ⟨1, 1, 1, 5⟩] :
            List (TrajEntry Int Int Int))).startIdx 1 := by
  refine ⟨?_, ?_, ?_, ?_, ?_, ?_, ?_⟩ <;>
    norm_num [tryPostVideo, videoScan, varAt, windowSum]

end TArt
